import Mathlib

/-!
Verification of the mail retrieval and header-normalization core of a
terminal mail client written in Rust (`src/mail.rs`, `src/inbox.rs`,
`src/decoder.rs`, `src/util.rs`).  The Rust code is shallowly embedded:
pure functions become Lean functions, stateful methods become explicit
state-passing functions, Rust panics (out-of-bounds indexing, `unwrap` on
an error) are modelled with `Except String`, and fallible operations
return `Option`.  Machine integers are modelled with `Int`/`Nat`; the
explicit wrapping cast `as i8` is modelled with `Int.emod`.
-/

namespace CliMail

/-! ## Timestamps (external crate `datetime`)

The program only ever observes a timestamp through the `DatePiece` and
`TimePiece` accessors `year()`, `month().months_from_january()`, `day()`,
`hour()`, `minute()`, `second()`, `millisecond()`.  `OffsetDateTime` is
therefore embedded as the record of those observed field values
(`month0` is the 0-based `months_from_january()` value). -/

structure OffsetDateTime where
  year : Int
  month0 : Nat
  day : Nat
  hour : Nat
  minute : Nat
  second : Nat
  millisecond : Nat
deriving DecidableEq, Repr

/-- Rust `util.rs` `get_timestamp_fields`: the vector of timestamp fields the
comparison loop walks, in source order — note the source lists `minute`
twice and ends with `millisecond`. -/
def get_timestamp_fields (d : OffsetDateTime) : List Int :=
  [d.year, (d.month0 : Int), (d.day : Int), (d.hour : Int), (d.minute : Int),
   (d.minute : Int), (d.second : Int), (d.millisecond : Int)]

/-- The `while let Ordering::Equal` loop of `util.rs` `compare_date`:
first-differing-field comparison over two equal-length field vectors. -/
def lexCompare : List Int → List Int → Ordering
  | x :: xs, y :: ys =>
    match compare x y with
    | .eq => lexCompare xs ys
    | o => o
  | _, _ => .eq

/-- Rust `util.rs` `compare_date`. -/
def compare_date (d0 d1 : OffsetDateTime) : Ordering :=
  lexCompare (get_timestamp_fields d0) (get_timestamp_fields d1)

/-! ## MailHeader (`mail.rs`) -/

structure MailHeader where
  id : Nat
  toAddrs : String
  fromAddr : String
  date : Option OffsetDateTime
  subject : String
deriving DecidableEq, Repr

/-- Rust `mail.rs` `impl Ord for MailHeader`, `cmp`. -/
def MailHeader.cmp (a b : MailHeader) : Ordering :=
  match a.date, b.date with
  | some own_date, some other_date => compare_date own_date other_date
  | some _, _ => .gt
  | _, some _ => .lt
  | _, _ => .eq

/-! ## Spec-side timestamp comparison (for claim C1)

Modelled from the spec: comparison of the timestamp fields "year, month,
day, hour, minute, second in that priority order".  A seven-field variant
additionally breaks ties on the millisecond field. -/

def specFields6 (d : OffsetDateTime) : List Int :=
  [d.year, (d.month0 : Int), (d.day : Int), (d.hour : Int), (d.minute : Int),
   (d.second : Int)]

def specCompare6 (d0 d1 : OffsetDateTime) : Ordering :=
  lexCompare (specFields6 d0) (specFields6 d1)

def specFields7 (d : OffsetDateTime) : List Int :=
  specFields6 d ++ [(d.millisecond : Int)]

def specCompare7 (d0 d1 : OffsetDateTime) : Ordering :=
  lexCompare (specFields7 d0) (specFields7 d1)

/-! ### C1 helper lemmas -/

theorem intCompare_swap (a b : Int) : compare a b = (compare b a).swap := by
  rcases lt_trichotomy a b with h | h | h
  · rw [compare_lt_iff_lt.mpr h, (compare_gt_iff_gt (a := b) (b := a)).mpr h]
    rfl
  · rw [h, compare_eq_iff_eq.mpr rfl]
    rfl
  · rw [compare_gt_iff_gt.mpr h, compare_lt_iff_lt.mpr h]
    rfl

theorem lexCompare_swap : ∀ xs ys : List Int, lexCompare xs ys = (lexCompare ys xs).swap
  | [], [] => rfl
  | [], _ :: _ => rfl
  | _ :: _, [] => rfl
  | x :: xs, y :: ys => by
    simp only [lexCompare]
    rw [intCompare_swap x y]
    cases compare y x with
    | lt => rfl
    | eq => simpa using lexCompare_swap xs ys
    | gt => rfl

theorem lexCompare_dup (a b : Int) (xs ys : List Int) :
    lexCompare (a :: a :: xs) (b :: b :: ys) = lexCompare (a :: xs) (b :: ys) := by
  simp only [lexCompare]
  cases h : compare a b <;> simp [h]

theorem lexCompare_append (xs' ys' : List Int) :
    ∀ xs ys : List Int, xs.length = ys.length → lexCompare xs ys ≠ .eq →
      lexCompare (xs ++ xs') (ys ++ ys') = lexCompare xs ys
  | [], [], _, h => absurd rfl h
  | [], _ :: _, h, _ => by simp at h
  | _ :: _, [], h, _ => by simp at h
  | x :: xs, y :: ys, hl, h => by
    simp only [lexCompare, List.cons_append] at h ⊢
    cases hc : compare x y with
    | lt => simp [hc]
    | gt => simp [hc]
    | eq =>
      simp only [hc] at h ⊢
      exact lexCompare_append xs' ys' xs ys (by simpa using hl) h

/-- The code's eight-field comparison (with its duplicated minute entry)
equals the seven-field comparison year, month, day, hour, minute, second,
millisecond. -/
theorem compare_date_eq_specCompare7 (d0 d1 : OffsetDateTime) :
    compare_date d0 d1 = specCompare7 d0 d1 := by
  unfold compare_date specCompare7 get_timestamp_fields specFields7 specFields6
  simp only [List.cons_append, List.nil_append]
  simp only [lexCompare]
  cases compare d0.year d1.year <;> try rfl
  cases compare (d0.month0 : Int) (d1.month0 : Int) <;> try rfl
  cases compare (d0.day : Int) (d1.day : Int) <;> try rfl
  cases compare (d0.hour : Int) (d1.hour : Int) <;> try rfl
  cases h : compare (d0.minute : Int) (d1.minute : Int) <;> simp [h]

theorem specCompare6_strict_compare_date (d0 d1 : OffsetDateTime)
    (h : specCompare6 d0 d1 ≠ .eq) : compare_date d0 d1 = specCompare6 d0 d1 := by
  rw [compare_date_eq_specCompare7]
  unfold specCompare7 specFields7
  unfold specCompare6 at h ⊢
  exact lexCompare_append _ _ _ _ (by simp [specFields6]) h

theorem MailHeader.cmp_swap (a b : MailHeader) :
    MailHeader.cmp a b = (MailHeader.cmp b a).swap := by
  unfold MailHeader.cmp
  cases a.date <;> cases b.date
  · rfl
  · rfl
  · rfl
  · exact lexCompare_swap _ _

/-! ### C1: claim theorems -/

/-- C1 counterexample: for two headers whose timestamps agree on year,
month, day, hour, minute and second but differ in the millisecond field,
the six-field rule of the claim says they compare equal, yet
`MailHeader::cmp` orders them strictly — so `cmp` does not agree with the
six-field comparison as the claim states. -/
theorem c1_counterexample :
    MailHeader.cmp
        { id := 0, toAddrs := "", fromAddr := "",
          date := some { year := 2020, month0 := 0, day := 1, hour := 0,
                         minute := 0, second := 0, millisecond := 0 },
          subject := "" }
        { id := 1, toAddrs := "", fromAddr := "",
          date := some { year := 2020, month0 := 0, day := 1, hour := 0,
                         minute := 0, second := 0, millisecond := 1 },
          subject := "" } = .lt
    ∧ specCompare6
        { year := 2020, month0 := 0, day := 1, hour := 0,
          minute := 0, second := 0, millisecond := 0 }
        { year := 2020, month0 := 0, day := 1, hour := 0,
          minute := 0, second := 0, millisecond := 1 } = .eq := by
  constructor <;> rfl

/-- C1 (amended): `MailHeader` comparison is as the claim says except that
ties on year, month, day, hour, minute, second are further broken on the
millisecond field: (1) when both headers carry timestamps, `cmp` equals
the lexicographic comparison of (year, month, day, hour, minute, second,
millisecond), and agrees with the claim's six-field comparison whenever
the latter is strict; (2) a header with a timestamp orders greater than
one without, on both sides; (3) two headers without timestamps compare
equal; (4) `cmp(A,B)` and `cmp(B,A)` are mirror images. -/
theorem c1_mailheader_ordering (A B : MailHeader) :
    (∀ d0 d1, A.date = some d0 → B.date = some d1 →
        MailHeader.cmp A B = specCompare7 d0 d1
        ∧ (specCompare6 d0 d1 ≠ .eq → MailHeader.cmp A B = specCompare6 d0 d1))
    ∧ (∀ d, A.date = some d → B.date = none → MailHeader.cmp A B = .gt)
    ∧ (∀ d, A.date = none → B.date = some d → MailHeader.cmp A B = .lt)
    ∧ (A.date = none → B.date = none → MailHeader.cmp A B = .eq)
    ∧ MailHeader.cmp A B = (MailHeader.cmp B A).swap := by
  refine ⟨?_, ?_, ?_, ?_, MailHeader.cmp_swap A B⟩
  · intro d0 d1 h0 h1
    have hc : MailHeader.cmp A B = compare_date d0 d1 := by
      unfold MailHeader.cmp
      rw [h0, h1]
    refine ⟨by rw [hc, compare_date_eq_specCompare7], ?_⟩
    intro hne
    rw [hc, specCompare6_strict_compare_date d0 d1 hne]
  · intro d h0 h1
    unfold MailHeader.cmp
    rw [h0, h1]
  · intro d h0 h1
    unfold MailHeader.cmp
    rw [h0, h1]
  · intro h0 h1
    unfold MailHeader.cmp
    rw [h0, h1]

/-- Witness for C1: the amended theorem applied at two concrete headers
with timestamps differing only in the second field. -/
theorem c1_mailheader_ordering_witness :
    MailHeader.cmp
        { id := 0, toAddrs := "", fromAddr := "",
          date := some { year := 2019, month0 := 11, day := 4, hour := 10,
                         minute := 2, second := 8, millisecond := 0 },
          subject := "" }
        { id := 1, toAddrs := "", fromAddr := "",
          date := some { year := 2019, month0 := 11, day := 4, hour := 10,
                         minute := 2, second := 9, millisecond := 0 },
          subject := "" }
      = specCompare6
          { year := 2019, month0 := 11, day := 4, hour := 10,
            minute := 2, second := 8, millisecond := 0 }
          { year := 2019, month0 := 11, day := 4, hour := 10,
            minute := 2, second := 9, millisecond := 0 } :=
  ((c1_mailheader_ordering _ _).1 _ _ rfl rfl).2 (by decide)

/-! ## String primitives (modelling Rust `std` string behavior)

All string manipulation is done on `List Char` with structural recursion;
`utf8Len` is the Rust byte length (`str::len`). -/

def utf8Len : List Char → Nat
  | [] => 0
  | c :: cs => c.utf8Size + utf8Len cs

/-- Rust `str::split_whitespace`: split on runs of whitespace, yielding no
empty tokens. -/
def splitWhitespaceAux : List Char → List Char → List String
  | [], [] => []
  | [], acc => [acc.reverse.asString]
  | c :: cs, acc =>
    if c.isWhitespace then
      match acc with
      | [] => splitWhitespaceAux cs []
      | _ => acc.reverse.asString :: splitWhitespaceAux cs []
    else splitWhitespaceAux cs (c :: acc)

def split_whitespace (s : String) : List String := splitWhitespaceAux s.toList []

/-- Rust `str::split(sep)`: every separator produces a boundary, so `""`
splits to `[""]` and a trailing separator produces a trailing `""`. -/
def splitCharAux (sep : Char) : List Char → List Char → List String
  | [], acc => [acc.reverse.asString]
  | c :: cs, acc =>
    if c = sep then acc.reverse.asString :: splitCharAux sep cs []
    else splitCharAux sep cs (c :: acc)

def splitChar (sep : Char) (s : String) : List String := splitCharAux sep s.toList []

/-- Rust `str::split_terminator(sep)`: like `split`, but a final empty
token (from a trailing separator or the empty string) is omitted. -/
def split_terminator (sep : Char) (s : String) : List String :=
  let ps := splitChar sep s
  match ps.getLast? with
  | some last => if last.isEmpty then ps.dropLast else ps
  | none => ps

def decDigit? (c : Char) : Option Nat :=
  if c.isDigit then some (c.toNat - '0'.toNat) else none

def parseDigitsAux : List Char → Nat → Option Nat
  | [], acc => some acc
  | c :: cs, acc =>
    match decDigit? c with
    | some d => parseDigitsAux cs (acc * 10 + d)
    | none => none

/-- One-or-more decimal digits, most significant first. -/
def parseDigits : List Char → Option Nat
  | [] => none
  | l => parseDigitsAux l 0

/-- Rust `FromStr` for signed integers: `[+-]?digits+`. -/
def parseSignedInt (s : String) : Option Int :=
  match s.toList with
  | '+' :: rest => (parseDigits rest).map (fun n => (n : Int))
  | '-' :: rest => (parseDigits rest).map (fun n => -(n : Int))
  | l => (parseDigits l).map (fun n => (n : Int))

/-- Rust `str::parse::<i8>()`: signed parse, `Err` outside `-128..=127`. -/
def parse_i8 (s : String) : Option Int :=
  (parseSignedInt s).bind (fun v => if -128 ≤ v ∧ v ≤ 127 then some v else none)

/-- Rust `str::parse::<i64>()`. -/
def parse_i64 (s : String) : Option Int :=
  (parseSignedInt s).bind
    (fun v => if -(2 ^ 63) ≤ v ∧ v ≤ 2 ^ 63 - 1 then some v else none)

/-- Rust `str::parse::<usize>()` (64-bit): optional `+`, digits, `Err` on
a sign `-` or on overflow. -/
def parse_usize (s : String) : Option Nat :=
  (match s.toList with
   | '+' :: rest => parseDigits rest
   | l => parseDigits l).bind
    (fun n => if n < 2 ^ 64 then some n else none)

/-- Rust `str::to_lowercase` (per-character model). -/
def lowercase (s : String) : String := (s.toList.map Char.toLower).asString

/-- Rust `Vec` indexing `v[i]`, which panics when out of bounds. -/
def indexPanic {α : Type} (l : List α) (i : Nat) : Except String α :=
  match l.get? i with
  | some a => .ok a
  | none => .error "index out of bounds"

/-- The wrapping Rust cast `as i8`. -/
def as_i8 (v : Int) : Int := (v + 128).emod 256 - 128

/-! ## Calendar checks (external crate `datetime`)

`LocalDate::ymd`, `LocalTime::hms` and `Offset::of_hours_and_minutes`
return `Err` on out-of-range components; `decode_date` calls `.unwrap()`
on all three, so an out-of-range component is a panic. -/

def is_leap_year (y : Int) : Bool :=
  y % 4 == 0 && (y % 100 != 0 || y % 400 == 0)

def days_in_month (y : Int) (m : Nat) : Nat :=
  match m with
  | 1 => 31
  | 2 => if is_leap_year y then 29 else 28
  | 3 => 31
  | 4 => 30
  | 5 => 31
  | 6 => 30
  | 7 => 31
  | 8 => 31
  | 9 => 30
  | 10 => 31
  | 11 => 30
  | 12 => 31
  | _ => 0

def ymd_valid (y : Int) (m : Nat) (d : Int) : Bool :=
  decide (1 ≤ d ∧ d ≤ (days_in_month y m : Int))

def hms_valid (h m s : Int) : Bool :=
  decide (0 ≤ h ∧ h ≤ 23 ∧ 0 ≤ m ∧ m ≤ 59 ∧ 0 ≤ s ∧ s ≤ 59)

def offset_valid (h m : Int) : Bool :=
  decide (¬(h > 0 ∧ m < 0) ∧ ¬(h < 0 ∧ m > 0) ∧ -24 < h ∧ h < 24 ∧ -60 < m ∧ m < 60)

/-- External crate `datetime`, `Offset::transform_date`: pairs a UTC
offset with a local date-time.  The program observes the result only
through the timestamp field accessors, and no claim depends on how the
offset shifts those fields, so the model keeps the local field values. -/
def transform_date (_offsetHours _offsetMinutes : Int) (d : OffsetDateTime) : OffsetDateTime :=
  d


/-- The month-abbreviation match inside `decode_date` (source order). -/
def month_from_abbrev (s : String) : Option Nat :=
  match s with
  | "jan" => some 1
  | "feb" => some 2
  | "mar" => some 3
  | "apr" => some 4
  | "may" => some 5
  | "jun" => some 6
  | "jul" => some 7
  | "aug" => some 8
  | "sep" => some 9
  | "oct" => some 10
  | "nov" => some 11
  | "dec" => some 12
  | _ => none

/-! ## `decoder.rs` `decode_date` -/

/-- Rust `decoder.rs` `decode_date`.  `Except.error` models a Rust panic
(out-of-bounds `tokens[i]`/`time_tokens[i]` indexing, or `.unwrap()` on an
out-of-range calendar component); `.ok none` models the source's
`return None` on a failed integer parse or unknown month abbreviation. -/
def decode_date (s : String) : Except String (Option OffsetDateTime) := do
  let tokens := split_whitespace s
  -- format "Wed, 04 Dec 2019 10:2:8 +0000"
  let t1 ← indexPanic tokens 1
  match parse_i8 t1 with
  | none => return none
  | some monthdays =>
    let t2 ← indexPanic tokens 2
    match month_from_abbrev (lowercase t2) with
    | none => return none
    | some month =>
      let t3 ← indexPanic tokens 3
      match parse_i64 t3 with
      | none => return none
      | some year =>
        let t4 ← indexPanic tokens 4
        let time_tokens := split_terminator ':' t4
        let tt0 ← indexPanic time_tokens 0
        match parse_i8 tt0 with
        | none => return none
        | some hour =>
          let tt1 ← indexPanic time_tokens 1
          match parse_i8 tt1 with
          | none => return none
          | some minute =>
            let tt2 ← indexPanic time_tokens 2
            match parse_i8 tt2 with
            | none => return none
            | some second =>
              let t5 ← indexPanic tokens 5
              match parse_i64 t5 with
              | none => return none
              | some offset =>
                if ymd_valid year month monthdays then
                  if hms_valid hour minute second then
                    if offset_valid (as_i8 (Int.tdiv offset 100)) (as_i8 (Int.tmod offset 100)) then
                      return some (transform_date (as_i8 (Int.tdiv offset 100))
                        (as_i8 (Int.tmod offset 100))
                        { year := year, month0 := month - 1, day := monthdays.toNat,
                          hour := hour.toNat, minute := minute.toNat,
                          second := second.toNat, millisecond := 0 })
                    else .error "unwrap on invalid offset"
                  else .error "unwrap on invalid time"
                else .error "unwrap on invalid date"

/-! ### C2: claim theorem -/

/-- C2 (code bug): `decode_date` indexes its token vectors by fixed
positions, so inputs with fewer than 6 whitespace tokens (here `""` and
`"Wed, 04"`) or a time token with fewer than 3 colon-separated parts
(here `"Wed, 04 Dec 2019 10 +0000"`) panic with an out-of-bounds index
instead of returning no value; a well-formed input parses fine. -/
theorem c2_decode_date_panics_on_short_input :
    decode_date "" = .error "index out of bounds"
    ∧ decode_date "Wed, 04" = .error "index out of bounds"
    ∧ decode_date "Wed, 04 Dec 2019 10 +0000" = .error "index out of bounds"
    ∧ decode_date "Wed, 04 Dec 2019 10:2:8 +0000" =
        .ok (some { year := 2019, month0 := 11, day := 4, hour := 10,
                    minute := 2, second := 8, millisecond := 0 }) :=
  ⟨rfl, rfl, rfl, rfl⟩


/-! ## `decoder.rs` quoted-printable and base64 payload decoders -/

/-- Hex digit set of Rust `u8::from_str_radix(.., 16)`. -/
def hexDigit? (c : Char) : Option Nat :=
  if '0' ≤ c ∧ c ≤ '9' then some (c.toNat - '0'.toNat)
  else if 'a' ≤ c ∧ c ≤ 'f' then some (c.toNat - 'a'.toNat + 10)
  else if 'A' ≤ c ∧ c ≤ 'F' then some (c.toNat - 'A'.toNat + 10)
  else none

def hexDigitsAux : List Char → Nat → Option Nat
  | [], acc => some acc
  | c :: cs, acc => (hexDigit? c).bind (fun d => hexDigitsAux cs (acc * 16 + d))

def hexDigits : List Char → Option Nat
  | [] => none
  | l => hexDigitsAux l 0

/-- Rust `u8::from_str_radix(s, 16)`: optional leading `+`, hex digits,
`Err` on an empty digit string, a non-digit, or overflow past 255. -/
def from_str_radix_u8_16 (cs : List Char) : Option Nat :=
  (match cs with
   | '+' :: rest => hexDigits rest
   | l => hexDigits l).bind (fun n => if n ≤ 255 then some n else none)

/-- Rust `String::from_utf8(vec![byte]).unwrap_or_default()`: one byte is
valid UTF-8 exactly when it is ASCII. -/
def from_utf8_single (byte : Nat) : String :=
  if byte < 128 then [Char.ofNat byte].asString else ""

/-- Rust `decoder.rs` `decode_utf8_q` (loop state: output `buf`, the
`processing_hex` flag, and `utf8_buf` as the characters pushed so far —
the source's `utf8_buf.len()` is its UTF-8 byte length).  The
`.unwrap()` on `u8::from_str_radix` panics when the buffered characters
are not a valid hex number; modelled as `Except.error`. -/
def decode_utf8_q_go : String → Bool → List Char → List Char → Except String String
  | buf, _, _, [] => .ok buf
  | buf, true, utf8_buf, c :: cs =>
    let ub := utf8_buf ++ [c]
    if utf8Len ub = 2 then
      match from_str_radix_u8_16 ub with
      | none => .error "unwrap on Err: invalid hex escape"
      | some byte => decode_utf8_q_go (buf ++ from_utf8_single byte) false [] cs
    else decode_utf8_q_go buf true ub cs
  | buf, false, utf8_buf, c :: cs =>
    if c = '=' then decode_utf8_q_go buf true utf8_buf cs
    else if c = '_' then decode_utf8_q_go (buf ++ " ") false utf8_buf cs
    else decode_utf8_q_go (buf ++ [c].asString) false utf8_buf cs

def decode_utf8_q (field : String) : Except String String :=
  decode_utf8_q_go "" false [] field.toList

/-- Base64 value of one character (standard alphabet of the external
`base64` crate). -/
def base64Val? (c : Char) : Option Nat :=
  if 'A' ≤ c ∧ c ≤ 'Z' then some (c.toNat - 'A'.toNat)
  else if 'a' ≤ c ∧ c ≤ 'z' then some (c.toNat - 'a'.toNat + 26)
  else if '0' ≤ c ∧ c ≤ '9' then some (c.toNat - '0'.toNat + 52)
  else if c = '+' then some 62
  else if c = '/' then some 63
  else none

/-- External `base64` crate, `base64::decode`: standard alphabet, length a
multiple of 4, `=` padding only at the end. -/
def base64decode : List Char → Option (List Nat)
  | [] => some []
  | [a, b, '=', '='] =>
    (base64Val? a).bind fun va => (base64Val? b).bind fun vb =>
      some [va * 4 + vb / 16]
  | [a, b, c, '='] =>
    (base64Val? a).bind fun va => (base64Val? b).bind fun vb =>
      (base64Val? c).bind fun vc =>
        some [va * 4 + vb / 16, vb % 16 * 16 + vc / 4]
  | a :: b :: c :: d :: rest =>
    (base64Val? a).bind fun va => (base64Val? b).bind fun vb =>
      (base64Val? c).bind fun vc => (base64Val? d).bind fun vd =>
        (base64decode rest).map
          (fun tail => (va * 4 + vb / 16) :: (vb % 16 * 16 + vc / 4) :: (vc % 4 * 64 + vd) :: tail)
  | _ => none

/-- UTF-8 decoding of a byte sequence (Rust `String::from_utf8`):
`none` on any invalid sequence (overlong forms, surrogates and
out-of-range code points rejected). -/
def utf8decode : List Nat → Option (List Char)
  | [] => some []
  | b :: bs =>
    if b < 0x80 then (utf8decode bs).map (fun cs => Char.ofNat b :: cs)
    else if 0xC2 ≤ b ∧ b ≤ 0xDF then
      match bs with
      | b1 :: rest =>
        if 0x80 ≤ b1 ∧ b1 ≤ 0xBF then
          (utf8decode rest).map (fun cs => Char.ofNat ((b - 0xC0) * 64 + (b1 - 0x80)) :: cs)
        else none
      | _ => none
    else if 0xE0 ≤ b ∧ b ≤ 0xEF then
      match bs with
      | b1 :: b2 :: rest =>
        let lo1 := if b = 0xE0 then 0xA0 else 0x80
        let hi1 := if b = 0xED then 0x9F else 0xBF
        if lo1 ≤ b1 ∧ b1 ≤ hi1 ∧ 0x80 ≤ b2 ∧ b2 ≤ 0xBF then
          (utf8decode rest).map
            (fun cs => Char.ofNat ((b - 0xE0) * 4096 + (b1 - 0x80) * 64 + (b2 - 0x80)) :: cs)
        else none
      | _ => none
    else if 0xF0 ≤ b ∧ b ≤ 0xF4 then
      match bs with
      | b1 :: b2 :: b3 :: rest =>
        let lo1 := if b = 0xF0 then 0x90 else 0x80
        let hi1 := if b = 0xF4 then 0x8F else 0xBF
        if lo1 ≤ b1 ∧ b1 ≤ hi1 ∧ 0x80 ≤ b2 ∧ b2 ≤ 0xBF ∧ 0x80 ≤ b3 ∧ b3 ≤ 0xBF then
          (utf8decode rest).map
            (fun cs => Char.ofNat ((b - 0xF0) * 262144 + (b1 - 0x80) * 4096
              + (b2 - 0x80) * 64 + (b3 - 0x80)) :: cs)
        else none
      | _ => none
    else none

/-- Rust `decoder.rs` `decode_utf8_b`: base64-decode (failure defaults to the
empty byte vector), then interpret as UTF-8 (failure defaults to the
empty string).  Never panics. -/
def decode_utf8_b (s : List Char) : String :=
  let bytes := (base64decode s).getD []
  match utf8decode bytes with
  | some cs => cs.asString
  | none => ""

/-! ### C3: claim theorem -/

/-- C3 (code bug): the quoted-printable payload decoder panics (via
`.unwrap()` on `u8::from_str_radix`) when the two characters after an `=`
escape are not valid hex (`"=ZZ"`), although a dangling `=` with fewer
than two following characters is indeed silently dropped (`"=Z"`,
`"a="`), and well-formed payloads decode (`"Hello_World"`, `"=48i"`). -/
theorem c3_decode_utf8_q_panics_on_invalid_hex :
    decode_utf8_q "=ZZ" = .error "unwrap on Err: invalid hex escape"
    ∧ decode_utf8_q "=Z" = .ok ""
    ∧ decode_utf8_q "a=" = .ok "a"
    ∧ decode_utf8_q "Hello_World" = .ok "Hello World"
    ∧ decode_utf8_q "=48i" = .ok "Hi" :=
  ⟨rfl, rfl, rfl, rfl, rfl⟩


/-! ## `decoder.rs` `decode`: marker scanning and splicing

Rust `&str` is UTF-8 bytes and range-slicing is by byte index, panicking
when an index is not a character boundary.  Strings are embedded as
`List Char`; `sliceBytes` reproduces byte-indexed slicing including the
boundary panics (`none`). -/

/-- Drop exactly `n` UTF-8 bytes from the front; `none` when `n` is not a
character boundary (or exceeds the byte length). -/
def dropBytes : List Char → Nat → Option (List Char)
  | cs, 0 => some cs
  | [], _ + 1 => none
  | c :: cs, n + 1 =>
    if c.utf8Size ≤ n + 1 then dropBytes cs (n + 1 - c.utf8Size) else none

/-- Take exactly `n` UTF-8 bytes from the front; `none` when `n` is not a
character boundary (or exceeds the byte length). -/
def takeBytes : Nat → List Char → Option (List Char)
  | 0, _ => some []
  | _ + 1, [] => none
  | n + 1, c :: cs =>
    if c.utf8Size ≤ n + 1 then (takeBytes (n + 1 - c.utf8Size) cs).map (fun l => c :: l)
    else none

/-- Rust `&s[a..b]`: defined iff `a ≤ b ≤ s.len()` and both ends are
character boundaries; otherwise the program panics. -/
def sliceBytes (cs : List Char) (a b : Nat) : Option (List Char) :=
  if a ≤ b ∧ b ≤ utf8Len cs then (dropBytes cs a).bind (takeBytes (b - a)) else none

/-- Rust `decoder.rs` marker constants. -/
def START_MARKER_UTF8_Q : List (List Char) := ["=?UTF-8?q?".toList, "=?utf-8?q?".toList]

def START_MARKER_UTF8_B : List (List Char) := ["=?UTF-8?B?".toList]

def END_MARKER_UTF8 : List (List Char) := ["?=".toList]

/-- Rust `decoder.rs` `match_marker`: the first marker that is a suffix of `s`,
with its byte length.  (`str::ends_with` is a byte-suffix test; for the
all-ASCII markers used here that coincides with a character-suffix test.) -/
def match_marker (s : List Char) (markers : List (List Char)) : Option Nat :=
  markers.findSome?
    (fun marker => if marker.isSuffixOf s then some (utf8Len marker) else none)

/-- Rust `decoder.rs` `find_marker`: scan `end` from 1 through the byte length
until some marker is a suffix of `field[..end]`, returning the marker's
byte offset and length.  `fuel` bounds the iterations; the initial fuel
`utf8Len field + 1` covers every iteration the loop can perform. -/
def find_marker_go (field : List Char) (markers : List (List Char)) :
    Nat → Nat → Except String (Option (Nat × Nat))
  | _, 0 => .ok none
  | e, fuel + 1 =>
    if e ≤ utf8Len field then
      match sliceBytes field 0 e with
      | none => .error "byte index is not a char boundary"
      | some pre =>
        match markers.findSome?
            (fun marker => if marker.isSuffixOf pre then some marker else none) with
        | some marker => .ok (some (e - utf8Len marker, utf8Len marker))
        | none => find_marker_go field markers (e + 1) fuel
    else .ok none

def find_marker (field : List Char) (markers : List (List Char)) :
    Except String (Option (Nat × Nat)) :=
  find_marker_go field markers 1 (utf8Len field + 1)

/-- Rust `decode_utf8_q` as used in the `codes` table (payload as chars). -/
def decode_utf8_q_chars (s : List Char) : Except String String :=
  decode_utf8_q_go "" false [] s

/-- The `codes` table of `decoder.rs` `decode`: (start markers,
end markers, payload decoder).  The base64 payload decoder never panics. -/
def codes :
    List (List (List Char) × List (List Char) × (List Char → Except String String)) :=
  [(START_MARKER_UTF8_Q, END_MARKER_UTF8, decode_utf8_q_chars),
   (START_MARKER_UTF8_B, END_MARKER_UTF8, fun s => .ok (decode_utf8_b s))]

/-- The inner `for (start_markers, end_markers, decode_fn) in codes` loop:
the first code whose start marker matches the window, together with the
matched marker's byte length. -/
def codesFind (window : List Char) :
    Option (Nat × List (List Char) × (List Char → Except String String)) :=
  codes.findSome?
    (fun sef => (match_marker window sef.1).map (fun size => (size, sef.2.1, sef.2.2)))

/-- The scanning `while end <= length` loop of `decoder.rs` `decode`:
`start`/`e` are the current byte indices and `changed` the collected
`((outer_min, outer_max), replacement)` records.  `fuel` bounds the
remaining iterations; `e` grows by at least one per iteration, so the
initial fuel `utf8Len field + 1` covers the whole scan. -/
def decode_go (field : List Char) :
    Nat → Nat → List ((Nat × Nat) × String) → Nat →
      Except String (List ((Nat × Nat) × String))
  | _, _, changed, 0 => .ok changed
  | start, e, changed, fuel + 1 =>
    if e ≤ utf8Len field then
      match sliceBytes field start e with
      | none => .error "byte index is not a char boundary"
      | some window =>
        match codesFind window with
        | some (size, end_markers, decode_fn) =>
          let inner_min := e
          let outer_min := inner_min - size
          match sliceBytes field e (utf8Len field) with
          | none => .error "byte index is not a char boundary"
          | some rest =>
            match find_marker rest end_markers with
            | .error msg => .error msg
            | .ok found =>
              let inner_max := match found with
                | some om => inner_min + om.1
                | none => utf8Len field
              let outer_max := match found with
                | some om => inner_min + om.1 + om.2
                | none => utf8Len field
              match sliceBytes field inner_min inner_max with
              | none => .error "byte index is not a char boundary"
              | some payload =>
                match decode_fn payload with
                | .error msg => .error msg
                | .ok decoded =>
                  decode_go field outer_max (outer_max + 1)
                    (changed ++ [((outer_min, outer_max), decoded)]) fuel
        | none => decode_go field start (e + 1) changed fuel
    else .ok changed

/-- Rust `slice::sort_by` is a stable sort; for the total-preorder
comparators used in this program the stable sorted result is unique, so a
stable insertion sort is an exact model. -/
def insertSorted {α : Type} (cmp : α → α → Ordering) (x : α) : List α → List α
  | [] => [x]
  | y :: ys => if cmp x y = .gt then y :: insertSorted cmp x ys else x :: y :: ys

def rustSortBy {α : Type} (cmp : α → α → Ordering) : List α → List α
  | [] => []
  | x :: xs => insertSorted cmp x (rustSortBy cmp xs)

/-- Rust `Ord` for `(usize, usize)`: lexicographic. -/
def pairCmp (a b : Nat × Nat) : Ordering :=
  match compare a.1 b.1 with
  | .eq => compare a.2 b.2
  | o => o

/-- The splice-back loop at the end of `decode`: copy untouched gaps
verbatim, insert each replacement, then append the final tail. -/
def rebuild (field : List Char) :
    List ((Nat × Nat) × String) → Nat → String → Except String String
  | [], index, ret =>
    match sliceBytes field index (utf8Len field) with
    | none => .error "byte index is not a char boundary"
    | some tail => .ok (ret ++ tail.asString)
  | ((s, e), str) :: restChanged, index, ret =>
    if index < s then
      match sliceBytes field index s with
      | none => .error "byte index is not a char boundary"
      | some gap => rebuild field restChanged e (ret ++ gap.asString ++ str)
    else rebuild field restChanged e (ret ++ str)

/-- Rust `decoder.rs` `decode` (the source binds `field`'s byte view once; here
`field.toList` stands for it throughout). -/
def decode (field : String) : Except String String :=
  match decode_go field.toList 0 1 [] (utf8Len field.toList + 1) with
  | .error msg => .error msg
  | .ok changed =>
    rebuild field.toList (rustSortBy (fun a b => pairCmp a.1 b.1) changed) 0 ""


/-! ### C9 helper lemmas: ASCII slicing -/

theorem utf8Len_eq_length (cs : List Char) (h : ∀ c ∈ cs, c.utf8Size = 1) :
    utf8Len cs = cs.length := by
  induction cs with
  | nil => rfl
  | cons c cs ih =>
    simp only [utf8Len, List.length_cons]
    rw [h c (List.mem_cons_self c cs), ih (fun x hx => h x (List.mem_cons_of_mem c hx))]
    omega

theorem dropBytes_ascii (cs : List Char) (h : ∀ c ∈ cs, c.utf8Size = 1) :
    ∀ n, n ≤ cs.length → dropBytes cs n = some (cs.drop n) := by
  induction cs with
  | nil =>
    intro n hn
    have hz : n = 0 := Nat.le_zero.mp hn
    subst hz
    rfl
  | cons c cs ih =>
    intro n hn
    cases n with
    | zero => rfl
    | succ m =>
      simp only [dropBytes]
      rw [h c (List.mem_cons_self c cs)]
      rw [if_pos (by omega : 1 ≤ m + 1)]
      rw [show m + 1 - 1 = m from rfl]
      rw [ih (fun x hx => h x (List.mem_cons_of_mem c hx)) m (by simpa using hn)]
      rfl

theorem takeBytes_ascii (cs : List Char) (h : ∀ c ∈ cs, c.utf8Size = 1) :
    ∀ n, n ≤ cs.length → takeBytes n cs = some (cs.take n) := by
  induction cs with
  | nil =>
    intro n hn
    have hz : n = 0 := Nat.le_zero.mp hn
    subst hz
    rfl
  | cons c cs ih =>
    intro n hn
    cases n with
    | zero => rfl
    | succ m =>
      simp only [takeBytes]
      rw [h c (List.mem_cons_self c cs)]
      rw [if_pos (by omega : 1 ≤ m + 1)]
      rw [show m + 1 - 1 = m from rfl]
      rw [ih (fun x hx => h x (List.mem_cons_of_mem c hx)) m (by simpa using hn)]
      rfl

theorem sliceBytes_ascii (cs : List Char) (h : ∀ c ∈ cs, c.utf8Size = 1)
    (a b : Nat) (hab : a ≤ b) (hb : b ≤ cs.length) :
    sliceBytes cs a b = some ((cs.drop a).take (b - a)) := by
  unfold sliceBytes
  rw [utf8Len_eq_length cs h, if_pos ⟨hab, hb⟩,
    dropBytes_ascii cs h a (le_trans hab hb)]
  exact takeBytes_ascii (cs.drop a) (fun x hx => h x (List.mem_of_mem_drop hx)) (b - a)
    (by rw [List.length_drop]; omega)

theorem find_marker_go_none (rest : List Char) (ms : List (List Char))
    (hascii : ∀ c ∈ rest, c.utf8Size = 1)
    (hno : ∀ e, e ≤ rest.length → ∀ m ∈ ms, m.isSuffixOf (rest.take e) = false) :
    ∀ fuel e, find_marker_go rest ms e fuel = .ok none := by
  intro fuel
  induction fuel with
  | zero => intro e; rfl
  | succ f ih =>
    intro e
    simp only [find_marker_go]
    rw [utf8Len_eq_length rest hascii]
    by_cases he : e ≤ rest.length
    · rw [if_pos he]
      have hs : sliceBytes rest 0 e = some (rest.take e) := by
        simpa using sliceBytes_ascii rest hascii 0 e (Nat.zero_le e) he
      rw [hs]
      have hfs : ms.findSome?
          (fun marker => if marker.isSuffixOf (rest.take e) then some marker else none)
          = none := by
        refine List.findSome?_eq_none_iff.mpr ?_
        intro m hm
        simp [hno e he m hm]
      simp only [hfs]
      exact ih (e + 1)
    · rw [if_neg he]

theorem decode_go_skip (field : List Char) (hascii : ∀ c ∈ field, c.utf8Size = 1)
    (e0 : Nat) (hlen : e0 ≤ field.length)
    (hfirst : ∀ e, e < e0 → codesFind (field.take e) = none)
    (changed : List ((Nat × Nat) × String)) :
    ∀ d fuel e, e + d = e0 →
      decode_go field 0 e changed (fuel + d) = decode_go field 0 e0 changed fuel := by
  intro d
  induction d with
  | zero =>
    intro fuel e he
    rw [Nat.add_zero] at he
    rw [Nat.add_zero, he]
  | succ k ih =>
    intro fuel e he
    have he0 : e < e0 := by omega
    have helen : e ≤ field.length := by omega
    rw [show fuel + (k + 1) = (fuel + k) + 1 from rfl]
    simp only [decode_go]
    rw [utf8Len_eq_length field hascii]
    rw [if_pos helen]
    have hs : sliceBytes field 0 e = some (field.take e) := by
      simpa using sliceBytes_ascii field hascii 0 e (Nat.zero_le e) helen
    simp only [hs, hfirst e he0]
    exact ih fuel (e + 1) (by omega)

theorem decode_go_match_step (field : List Char) (hascii : ∀ c ∈ field, c.utf8Size = 1)
    (e0 size : Nat) (endms : List (List Char))
    (decode_fn : List Char → Except String String) (decoded : String)
    (hlen : e0 ≤ field.length)
    (hmatch : codesFind (field.take e0) = some (size, endms, decode_fn))
    (hnoend : ∀ e, e ≤ field.length - e0 → ∀ m ∈ endms,
        m.isSuffixOf ((field.drop e0).take e) = false)
    (hdec : decode_fn (field.drop e0) = .ok decoded)
    (changed : List ((Nat × Nat) × String)) :
    ∀ fuel, 1 ≤ fuel →
      decode_go field 0 e0 changed (fuel + 1)
        = .ok (changed ++ [((e0 - size, field.length), decoded)]) := by
  intro fuel hfuel
  simp only [decode_go]
  rw [utf8Len_eq_length field hascii]
  rw [if_pos hlen]
  have hs : sliceBytes field 0 e0 = some (field.take e0) := by
    simpa using sliceBytes_ascii field hascii 0 e0 (Nat.zero_le e0) hlen
  have hrest : sliceBytes field e0 field.length = some (field.drop e0) := by
    rw [sliceBytes_ascii field hascii e0 field.length hlen (le_refl _)]
    congr 1
    exact List.take_of_length_le (by rw [List.length_drop])
  have hfm : find_marker (field.drop e0) endms = .ok none := by
    unfold find_marker
    exact find_marker_go_none (field.drop e0) endms
      (fun x hx => hascii x (List.mem_of_mem_drop hx))
      (by rw [List.length_drop]; exact hnoend) _ _
  simp only [hs, hmatch, hrest, hfm, hdec]
  cases fuel with
  | zero => omega
  | succ f =>
    simp only [decode_go]
    rw [utf8Len_eq_length field hascii]
    rw [if_neg (by omega)]

theorem rebuild_single (field : List Char) (hascii : ∀ c ∈ field, c.utf8Size = 1)
    (o : Nat) (ho : o ≤ field.length) (decoded : String) :
    rebuild field [((o, field.length), decoded)] 0 ""
      = .ok ((field.take o).asString ++ decoded) := by
  have hend : sliceBytes field field.length field.length = some [] := by
    rw [sliceBytes_ascii field hascii field.length field.length (le_refl _) (le_refl _)]
    simp
  by_cases h0 : 0 < o
  · have hs : sliceBytes field 0 o = some (field.take o) := by
      simpa using sliceBytes_ascii field hascii 0 o (Nat.zero_le o) ho
    simp only [rebuild, if_pos h0, hs, utf8Len_eq_length field hascii, hend]
    apply congrArg
    simp [List.asString]
  · have ho0 : o = 0 := by omega
    subst ho0
    simp only [rebuild, if_neg h0, utf8Len_eq_length field hascii, hend]
    apply congrArg
    simp [List.asString]

/-! ### C9: claim theorems -/

/-- C9 counterexample: two inputs on which a start marker is matched and
no end marker occurs afterwards, yet `decode` panics instead of
returning: a non-ASCII payload makes the byte-indexed slicing inside
`find_marker` hit a non-boundary index, and an invalid hex escape makes
the quoted-printable payload decoder panic. -/
theorem c9_counterexample :
    decode "=?utf-8?q?é" = .error "byte index is not a char boundary"
    ∧ decode "=?UTF-8?q?=ZZ" = .error "unwrap on Err: invalid hex escape" :=
  ⟨rfl, rfl⟩

/-- C9 (amended): for every input of single-byte (ASCII) characters in
which a start marker is first matched at scan position `e0` and no end
marker occurs afterwards, and whose remainder the selected payload
decoder decodes without panicking, `decode` treats the entire remainder
(from just after the start marker to the end of input) as the encoded
payload, replaces the span from the start of the marker to the end of
input with its decoding, and returns without panicking. -/
theorem c9_decode_unterminated_span (field : String) (e0 size : Nat)
    (endms : List (List Char)) (decode_fn : List Char → Except String String)
    (decoded : String)
    (hascii : ∀ c ∈ field.toList, c.utf8Size = 1)
    (h1 : 1 ≤ e0) (hlen : e0 ≤ field.toList.length)
    (hfirst : ∀ e, e < e0 → (codesFind (field.toList.take e)).isNone = true)
    (hmatch : codesFind (field.toList.take e0) = some (size, endms, decode_fn))
    (hnoend : ∀ e, e ≤ field.toList.length - e0 → ∀ m ∈ endms,
        m.isSuffixOf ((field.toList.drop e0).take e) = false)
    (hdec : decode_fn (field.toList.drop e0) = .ok decoded) :
    decode field = .ok ((field.toList.take (e0 - size)).asString ++ decoded) := by
  have hfirst2 : ∀ e, e < e0 → codesFind (field.toList.take e) = none :=
    fun e he => Option.isNone_iff_eq_none.mp (hfirst e he)
  unfold decode
  rw [utf8Len_eq_length field.toList hascii]
  rw [show field.toList.length + 1
      = (field.toList.length - e0 + 2) + (e0 - 1) from by omega]
  rw [decode_go_skip field.toList hascii e0 hlen hfirst2 []
      (e0 - 1) (field.toList.length - e0 + 2) 1 (by omega)]
  rw [show field.toList.length - e0 + 2 = (field.toList.length - e0 + 1) + 1 from by omega]
  simp only [decode_go_match_step field.toList hascii e0 size endms decode_fn decoded hlen
      hmatch hnoend hdec [] (field.toList.length - e0 + 1) (by omega)]
  simp only [rustSortBy, insertSorted, List.nil_append]
  exact rebuild_single field.toList hascii (e0 - size) (by omega) decoded

/-- Witness for C9: the amended theorem applied to a concrete input with
a quoted-printable start marker and no closing marker. -/
theorem c9_decode_unterminated_span_witness :
    decode "ab=?UTF-8?q?x_y" = .ok "abx y" := by
  have h := c9_decode_unterminated_span "ab=?UTF-8?q?x_y" 12 10 END_MARKER_UTF8
    decode_utf8_q_chars "x y" (by decide) (by decide) (by decide) (by decide)
    rfl (by decide) rfl
  exact h


/-! ## `util.rs` display helpers

The `while` loops of `fit_string_to_size` are written with an explicit
fuel argument that bounds their iterations (each pop removes one
character, so `cs.length` pops suffice; each pad adds one byte, so `size`
pads suffice); this keeps the definitions kernel-computable. -/

/-- The `while s.len() > (size - 4) { s.pop(); }` loop. -/
def popLoop (target : Nat) : Nat → List Char → List Char
  | 0, cs => cs
  | fuel + 1, cs => if target < utf8Len cs then popLoop target fuel cs.dropLast else cs

/-- The `while s.len() < size { s.push(' '); }` loop. -/
def padLoop (size : Nat) : Nat → List Char → List Char
  | 0, cs => cs
  | fuel + 1, cs => if utf8Len cs < size then padLoop size fuel (cs ++ [' ']) else cs

/-- Rust `util.rs` `fit_string_to_size`.  Lengths are Rust byte lengths;
`size - 4` is `usize` arithmetic, never below zero at the call sites
(sizes 20/60/100). -/
def fit_string_to_size (input : String) (size : Nat) : String :=
  let s := input.toList
  if size < utf8Len s then (popLoop (size - 4) s.length s).asString ++ " ..."
  else if utf8Len s < size then (padLoop size size s).asString
  else input

/-- Rust `format!("{:0>2}", n)`. -/
def pad2 (n : Nat) : String := if n < 10 then "0" ++ toString n else toString n

/-- Rust `util.rs` `format_date`. -/
def format_date (d : OffsetDateTime) : String :=
  pad2 d.day ++ "." ++ pad2 (d.month0 + 1) ++ "." ++ toString d.year ++ ", "
    ++ pad2 d.hour ++ ":" ++ pad2 d.minute ++ ":" ++ pad2 d.second

/-! ## `inbox.rs` Mail and MailBuilder -/

structure Mail where
  date : OffsetDateTime
  fromAddr : String
  toAddrs : List String
  cc : List String
  bcc : List String
  subject : String
  text : String
deriving DecidableEq, Repr

structure MailBuilder where
  date : Option OffsetDateTime
  fromAddr : Option String
  toAddrs : Option (List String)
  cc : Option (List String)
  bcc : Option (List String)
  subject : Option String
  text : Option String
deriving DecidableEq, Repr

/-- Rust `inbox.rs` `MailBuilder::build`.  `now` stands for the ambient clock
default `Offset(+01:00).transform_date(LocalDateTime::now())`; the `?`
operators return the first missing required field together with a clone
of the builder.  Note the source names the missing subject field
"about". -/
def MailBuilder.build (now : OffsetDateTime) (b : MailBuilder) :
    Except (MailBuilder × String) Mail :=
  match b.fromAddr with
  | none => .error (b, "from")
  | some f =>
    match b.toAddrs with
    | none => .error (b, "to")
    | some t =>
      match b.subject with
      | none => .error (b, "about")
      | some sub =>
        match b.text with
        | none => .error (b, "text")
        | some tx =>
          .ok { date := b.date.getD now, fromAddr := f, toAddrs := t,
                cc := b.cc.getD [], bcc := b.bcc.getD [],
                subject := sub, text := tx }

/-- Rust `mail.rs` line 401: the diagnostic `ImapAccount::get_mail` prints when
`build` fails, interpolating the returned field name. -/
def build_failure_message (field : String) : String :=
  "Could not build mail: [missing field: " ++ field ++ "]"

/-- Rust `inbox.rs` `Mail::get_info`. -/
def Mail.get_info (m : Mail) : String := m.fromAddr ++ " | " ++ m.subject

/-- Rust `mail.rs` `MailHeader::get_info`. -/
def MailHeader.get_info (h : MailHeader) : String :=
  fit_string_to_size ((h.date.map (fun d => format_date d)).getD "<date>") 20
    ++ " |  " ++ fit_string_to_size h.fromAddr 60
    ++ " |  " ++ fit_string_to_size h.subject 100

/-! ### C8: claim theorem -/

/-- C8: `MailBuilder::build` succeeds iff all required fields (from, to,
subject, text) are set — the optional date/cc/bcc never block it — and on
failure it reports the first missing required field in source order,
under the names "from", "to", "about" (the builder's display label for
the subject field) and "text", which the caller renders inside
"missing field: <name>". -/
theorem c8_mailbuilder_build (now : OffsetDateTime) (b : MailBuilder) :
    ((∃ m, MailBuilder.build now b = .ok m) ↔
      (b.fromAddr ≠ none ∧ b.toAddrs ≠ none ∧ b.subject ≠ none ∧ b.text ≠ none))
    ∧ (b.fromAddr = none → MailBuilder.build now b = .error (b, "from"))
    ∧ (b.fromAddr ≠ none → b.toAddrs = none →
        MailBuilder.build now b = .error (b, "to"))
    ∧ (b.fromAddr ≠ none → b.toAddrs ≠ none → b.subject = none →
        MailBuilder.build now b = .error (b, "about"))
    ∧ (b.fromAddr ≠ none → b.toAddrs ≠ none → b.subject ≠ none → b.text = none →
        MailBuilder.build now b = .error (b, "text")) := by
  unfold MailBuilder.build
  rcases hf : b.fromAddr with _ | f <;> rcases ht : b.toAddrs with _ | t <;>
    rcases hs : b.subject with _ | sub <;> rcases hx : b.text with _ | tx <;>
      simp [hf, ht, hs, hx]

/-- Witness for C8: a builder with from, to and text set but no subject
fails on the first missing field in order, named "about". -/
theorem c8_mailbuilder_build_witness :
    MailBuilder.build
        { year := 2020, month0 := 0, day := 1, hour := 0, minute := 0,
          second := 0, millisecond := 0 }
        { date := none, fromAddr := some "a@x.com", toAddrs := some ["b@x.com"],
          cc := none, bcc := none, subject := none, text := some "hi" }
      = .error ({ date := none, fromAddr := some "a@x.com",
                  toAddrs := some ["b@x.com"], cc := none, bcc := none,
                  subject := none, text := some "hi" }, "about") :=
  (c8_mailbuilder_build _ _).2.2.2.1 (by decide) (by decide) rfl

/-! ## MailProxy and the adapter environment (`mail.rs`) -/

/-- The backend connection as observed through the `InboxAdapter`
dispatch: one header-listing attempt (`load_inbox`) and a body fetch per
header (`get_mail`); every transport, session, search and build failure
collapses to `none` before crossing this boundary (spec §7).  The
adapter is passed by `&mut` in the source but no claim depends on
adapter-internal state, so it is modelled as unchanging. -/
structure InboxAdapter where
  load_inbox : Option (List MailHeader)
  get_mail : MailHeader → Option Mail

structure MailProxy where
  header : MailHeader
  mail : Option Mail
deriving DecidableEq, Repr

/-- Rust `mail.rs` `MailProxy::from_header`. -/
def MailProxy.from_header (header : MailHeader) : MailProxy :=
  { header := header, mail := none }

/-- Rust `mail.rs` `impl Ord for MailProxy`: delegates to the header. -/
def MailProxy.cmp (a b : MailProxy) : Ordering := MailHeader.cmp a.header b.header

/-- Rust `mail.rs` `MailProxy::get_info`. -/
def MailProxy.get_info (p : MailProxy) : String :=
  match p.mail with
  | some mail => mail.get_info
  | none => p.header.get_info

/-- Rust `mail.rs` `MailProxy::get_mail`: load the record on a cache miss, then
return the cache.  The result is (returned record, updated proxy, number
of adapter fetches issued by this call). -/
def MailProxy.get_mail (adapter : InboxAdapter) (p : MailProxy) :
    Option Mail × MailProxy × Nat :=
  match p.mail with
  | none =>
    let p2 : MailProxy := { p with mail := adapter.get_mail p.header }
    (p2.mail, p2, 1)
  | some m => (some m, p, 0)

/-! ### C6: claim theorem -/

/-- C6: `MailProxy::get_mail` is memoized.  With a working adapter (fetch
returns a record `m`), two successive calls issue at most one underlying
fetch in total; the second call issues none, returns exactly the cached
record, and leaves the proxy unchanged; and once the cache is populated,
a later call with any adapter neither re-fetches nor changes the cache. -/
theorem c6_mailproxy_get_mail_memoized (adapter : InboxAdapter) (p : MailProxy)
    (m : Mail) (hwork : adapter.get_mail p.header = some m) :
    ((MailProxy.get_mail adapter p).2.2
        + (MailProxy.get_mail adapter (MailProxy.get_mail adapter p).2.1).2.2 ≤ 1)
    ∧ (MailProxy.get_mail adapter (MailProxy.get_mail adapter p).2.1).2.2 = 0
    ∧ (MailProxy.get_mail adapter (MailProxy.get_mail adapter p).2.1).1
        = (MailProxy.get_mail adapter p).2.1.mail
    ∧ (MailProxy.get_mail adapter (MailProxy.get_mail adapter p).2.1).2.1
        = (MailProxy.get_mail adapter p).2.1
    ∧ (∀ adapter2, MailProxy.get_mail adapter2 (MailProxy.get_mail adapter p).2.1
        = ((MailProxy.get_mail adapter p).2.1.mail,
           (MailProxy.get_mail adapter p).2.1, 0)) := by
  rcases hp : p.mail with _ | m0 <;>
    simp [MailProxy.get_mail, hp, hwork]

/-- A concrete record, adapter and fresh proxy for exercising
`MailProxy::get_mail`. -/
def sampleDate : OffsetDateTime :=
  { year := 2020, month0 := 0, day := 1, hour := 0, minute := 0,
    second := 0, millisecond := 0 }

def sampleMail : Mail :=
  { date := sampleDate, fromAddr := "f", toAddrs := ["t"], cc := [],
    bcc := [], subject := "s", text := "x" }

def sampleAdapter : InboxAdapter :=
  { load_inbox := none, get_mail := fun _ => some sampleMail }

def sampleProxy : MailProxy :=
  { header := { id := 3, toAddrs := "t", fromAddr := "f", date := none,
                subject := "s" },
    mail := none }

/-- Witness for C6: a fresh proxy and an adapter whose fetch returns a
record; applying the theorem shows the second call issues no fetch. -/
theorem c6_mailproxy_get_mail_memoized_witness :
    (MailProxy.get_mail sampleAdapter
        (MailProxy.get_mail sampleAdapter sampleProxy).2.1).2.2 = 0 :=
  (c6_mailproxy_get_mail_memoized sampleAdapter sampleProxy sampleMail rfl).2.1

/-! ## Sort invariant

Rust's `sort_by` (modelled by the stable `rustSortBy`) leaves a list
unchanged exactly when no adjacent pair is strictly out of order. -/

/-- No adjacent pair strictly out of order under the comparator. -/
def SortedByLe {α : Type} (cmp : α → α → Ordering) : List α → Prop
  | [] => True
  | [_] => True
  | x :: y :: l => cmp x y ≠ .gt ∧ SortedByLe cmp (y :: l)

instance sortedByLeDecidable {α : Type} (cmp : α → α → Ordering) :
    (l : List α) → Decidable (SortedByLe cmp l)
  | [] => .isTrue trivial
  | [_] => .isTrue trivial
  | _ :: y :: l =>
    have : Decidable (SortedByLe cmp (y :: l)) := sortedByLeDecidable cmp (y :: l)
    instDecidableAnd

theorem rustSortBy_eq_self {α : Type} (cmp : α → α → Ordering) :
    ∀ l : List α, SortedByLe cmp l → rustSortBy cmp l = l
  | [], _ => rfl
  | [_], _ => rfl
  | x :: y :: l, h => by
    obtain ⟨h1, h2⟩ := h
    show insertSorted cmp x (rustSortBy cmp (y :: l)) = x :: y :: l
    rw [rustSortBy_eq_self cmp (y :: l) h2]
    simp only [insertSorted]
    rw [if_neg h1]

theorem insertSorted_sortedByLe {α : Type} (cmp : α → α → Ordering)
    (htot : ∀ a b, cmp a b = .gt → cmp b a ≠ .gt) (x : α) :
    ∀ l, SortedByLe cmp l → SortedByLe cmp (insertSorted cmp x l)
  | [], _ => trivial
  | y :: ys, h => by
    simp only [insertSorted]
    by_cases hxy : cmp x y = .gt
    · rw [if_pos hxy]
      cases ys with
      | nil => exact ⟨htot x y hxy, trivial⟩
      | cons z zs =>
        obtain ⟨hyz, hzs⟩ := h
        have ih := insertSorted_sortedByLe cmp htot x (z :: zs) hzs
        simp only [insertSorted] at ih ⊢
        by_cases hxz : cmp x z = .gt
        · rw [if_pos hxz] at ih ⊢
          exact ⟨hyz, ih⟩
        · rw [if_neg hxz] at ih ⊢
          exact ⟨htot x y hxy, ih⟩
    · rw [if_neg hxy]
      exact ⟨hxy, h⟩

theorem rustSortBy_sortedByLe {α : Type} (cmp : α → α → Ordering)
    (htot : ∀ a b, cmp a b = .gt → cmp b a ≠ .gt) :
    ∀ l, SortedByLe cmp (rustSortBy cmp l)
  | [] => trivial
  | x :: xs =>
    insertSorted_sortedByLe cmp htot x _ (rustSortBy_sortedByLe cmp htot xs)

/-- The `MailProxy` entry comparator never orders a pair strictly both
ways (from `MailHeader.cmp_swap`). -/
theorem proxyPairCmp_total (a b : MailProxy × Bool)
    (h : MailProxy.cmp a.1 b.1 = .gt) : MailProxy.cmp b.1 a.1 ≠ .gt := by
  unfold MailProxy.cmp at h ⊢
  rw [MailHeader.cmp_swap b.1.header a.1.header, h]
  decide

/-! ## `inbox.rs` Inbox -/

/-- Rust `account.rs` `Account`: the connection-target and credential fields
feed only `get_inbox_adapter`, which appears here as the `env` parameter
of `Inbox.refresh`; `name` is the field the inbox itself reads. -/
structure Account where
  name : String
deriving DecidableEq, Repr

structure Inbox where
  mails : List (MailProxy × Bool)
  account : Account
  opened_mail : Option Nat
  input : Option InboxAdapter

/-- Rust `inbox.rs` `Inbox::new`. -/
def Inbox.new (account : Account) : Inbox :=
  { mails := [], account := account, opened_mail := none, input := none }

/-- Rust `inbox.rs` `Inbox::refresh`.  `env` models the I/O action
`self.account.get_inbox_adapter()`: `none` when no connection can be
established (`adapter.ok()` of an `Err`).  Returns the number of newly
appended entries together with the new state.  Note the final
`sort_by` runs unconditionally and `opened_mail` is never touched. -/
def Inbox.refresh (env : Option InboxAdapter) (s : Inbox) : Nat × Inbox :=
  let input1 : Option InboxAdapter :=
    match s.input with
    | none => env
    | some a => some a
  let numMails : Nat × List (MailProxy × Bool) :=
    match input1 with
    | some adapter =>
      match adapter.load_inbox with
      | some vec =>
        (vec.length, s.mails ++ vec.map (fun x => (MailProxy.from_header x, true)))
      | none => (0, s.mails)
    | none => (0, s.mails)
  (numMails.1,
   { s with mails := rustSortBy (fun a b => MailProxy.cmp a.1 b.1) numMails.2,
            input := input1 })

/-- Rust `refresh` itself (re)establishes the sort invariant assumed by C4:
every state a `refresh` produces has a sorted entry sequence (and
`Inbox::new` starts empty, trivially sorted). -/
theorem refresh_mails_sorted (env : Option InboxAdapter) (s : Inbox) :
    SortedByLe (fun a b => MailProxy.cmp a.1 b.1) ((Inbox.refresh env s).2).mails :=
  rustSortBy_sortedByLe _ (fun a b => proxyPairCmp_total a b) _

/-! ## `inbox.rs` `Inbox::open_mail` -/

/-- Rust `Iterator::max_by`: the maximum element; among ties the LAST
one is returned. -/
def rustMaxBy {α : Type} (cmp : α → α → Ordering) : List α → Option α
  | [] => none
  | x :: xs => some (xs.foldl (fun acc y => if cmp acc y = .gt then acc else y) x)

/-- Rust `Ord` for the unit type: always `Equal`. -/
def unitCmp (_a _b : Unit) : Ordering := .eq

/-- The score expression inside `Inbox::open_mail`'s fuzzy-match closure:
`chars().zip(ident.chars()).enumerate().find(mismatch).map_or(0, index)`. -/
def matchScore (info ident : String) : Nat :=
  match (info.toList.zip ident.toList).enum.find? (fun p => decide (p.2.1 ≠ p.2.2)) with
  | some (i, _) => i
  | none => 0

/-- The fuzzy-match closure of `Inbox::open_mail`: in the source its body
is the score statement terminated by a semicolon, so the closure
evaluates the score, discards it, and returns `()`. -/
def fuzzyClosure (ident : String) (m : MailProxy) : Unit :=
  (fun _ => ()) (matchScore (MailProxy.get_info m) ident)

/-- Rust `self.mails.get_mut(id).unwrap().1 = false`.  Both branches of
`open_mail` produce only in-range indices, so the `unwrap` always
succeeds; on the unreachable out-of-range index (the panic path) the
model leaves the list unchanged. -/
def setUnreadFalse : List (MailProxy × Bool) → Nat → List (MailProxy × Bool)
  | [], _ => []
  | mb :: rest, 0 => (mb.1, false) :: rest
  | mb :: rest, n + 1 => mb :: setUnreadFalse rest n

/-- Rust `inbox.rs` `Inbox::open_mail`. -/
def Inbox.open_mail (s : Inbox) (ident : String) : Inbox :=
  let index : Option Nat :=
    match parse_usize ident with
    | some id => if id < s.mails.length then some id else none
    | none =>
      (rustMaxBy (fun a b => unitCmp a.2 b.2)
          ((s.mails.map (fun mb => fuzzyClosure ident mb.1)).enum)).map
        (fun p => p.1)
  let s1 := { s with opened_mail := index }
  match index with
  | some id => { s1 with mails := setUnreadFalse s1.mails id }
  | none => s1

/-! ### C4: claim theorem -/

/-- C4: when no adapter is stored and none can be obtained (connect
fails, `env = none`), `refresh` returns 0 and the mailbox state — entry
sequence with its unread flags, opened cursor, everything — is exactly
unchanged.  The sortedness hypothesis is the mailbox invariant holding
of every reachable state: `Inbox::new` starts empty and every `refresh`
re-sorts (`refresh_mails_sorted`), while `open_mail` only toggles a
flag the comparator ignores. -/
theorem c4_refresh_failed_connect_unchanged
    (mails : List (MailProxy × Bool)) (account : Account) (opened : Option Nat)
    (hsorted : SortedByLe (fun a b => MailProxy.cmp a.1 b.1) mails) :
    Inbox.refresh none
        { mails := mails, account := account, opened_mail := opened, input := none }
      = (0, { mails := mails, account := account, opened_mail := opened,
              input := none }) := by
  show (0, ({ mails := rustSortBy (fun a b => MailProxy.cmp a.1 b.1) mails,
              account := account, opened_mail := opened, input := none } : Inbox))
      = (0, { mails := mails, account := account, opened_mail := opened,
              input := none })
  rw [rustSortBy_eq_self _ _ hsorted]

/-- Witness for C4: a one-entry sorted mailbox with no adapter; refresh
with a failed connection returns 0 and the very same state. -/
theorem c4_refresh_failed_connect_unchanged_witness :
    Inbox.refresh none
        { mails := [(sampleProxy, true)], account := { name := "acc" },
          opened_mail := some 0, input := none }
      = (0, { mails := [(sampleProxy, true)], account := { name := "acc" },
              opened_mail := some 0, input := none }) :=
  c4_refresh_failed_connect_unchanged [(sampleProxy, true)] { name := "acc" }
    (some 0) (by decide)

/-! ### C5: claim theorems -/

/-- C5 counterexample: `refresh` does NOT set the opened cursor to none —
on a state with the cursor at index 0 it is still index 0 afterwards. -/
theorem c5_counterexample :
    ¬ ((Inbox.refresh none
        { mails := [(sampleProxy, true)], account := { name := "acc" },
          opened_mail := some 0, input := none }).2.opened_mail = none) := by
  decide

/-- C5 (amended): `refresh` never touches the opened-mail cursor: it is
carried over unchanged across the unconditional re-sort (so after a
resort the stored index may denote a different logical message — the
hazard §9 of the spec flags — rather than being invalidated to none). -/
theorem c5_refresh_preserves_cursor (env : Option InboxAdapter) (s : Inbox) :
    ((Inbox.refresh env s).2).opened_mail = s.opened_mail := by
  obtain ⟨mails, account, opened, input⟩ := s
  rcases input with _ | a
  · rcases env with _ | ad
    · rfl
    · rcases had : ad.load_inbox with _ | vec <;> simp [Inbox.refresh, had]
  · rcases had : a.load_inbox with _ | vec <;> simp [Inbox.refresh, had]

/-! ### C10: claim theorem -/

/-- C10: an identifier parsing as an integer `id` with `id ≥` the number
of entries sets the opened cursor to none (overwriting any previous
cursor) and leaves everything else — in particular every unread flag —
unchanged. -/
theorem c10_open_mail_out_of_range (s : Inbox) (ident : String) (id : Nat)
    (hp : parse_usize ident = some id) (hrange : s.mails.length ≤ id) :
    Inbox.open_mail s ident = { s with opened_mail := none } := by
  unfold Inbox.open_mail
  simp only [hp]
  rw [if_neg (by omega)]

/-- Witness for C10: identifier "5" on a one-entry mailbox with the
cursor previously at 0. -/
theorem c10_open_mail_out_of_range_witness :
    Inbox.open_mail
        { mails := [(sampleProxy, true)], account := { name := "acc" },
          opened_mail := some 0, input := none } "5"
      = { mails := [(sampleProxy, true)], account := { name := "acc" },
          opened_mail := none, input := none } :=
  c10_open_mail_out_of_range _ "5" 5 rfl (by decide)

/-! ### C7: claim theorem -/

/-- Modelled from the spec: the longest common character run from the
start of two strings — the score the fuzzy match is supposed to
maximize. -/
def commonPrefixRun : List Char → List Char → Nat
  | a :: as, b :: bs => if a = b then commonPrefixRun as bs + 1 else 0
  | _, _ => 0

/-- A two-entry inbox whose first entry matches `identAlice` strictly
better than the second. -/
def proxyAlice : MailProxy :=
  { header := { id := 0, toAddrs := "t", fromAddr := "alice", date := none,
                subject := "sub" },
    mail := none }

def proxyBob : MailProxy :=
  { header := { id := 1, toAddrs := "t", fromAddr := "bob", date := none,
                subject := "sub" },
    mail := none }

def inboxTwo : Inbox :=
  { mails := [(proxyAlice, true), (proxyBob, true)],
    account := { name := "acc" }, opened_mail := none, input := none }

/-- The first 25 characters of `proxyAlice`'s display string (the padded
date placeholder, a column separator, then the `a` of "alice"). -/
def identAlice : String :=
  ("<date>".toList ++ List.replicate 14 ' ' ++ " |  a".toList).asString

/-- C7 (code bug): the fuzzy-match closure ends in a semicolon, so its
score is discarded and `max_by` compares only `()` keys, returning the
LAST entry.  On a two-entry inbox whose first entry's display string
shares a strictly longer initial character run with the identifier
(25 vs 24), `open_mail` still selects index 1, clears that entry's
unread flag and sets it as the opened cursor — not the best-scoring
entry 0 the claim requires. -/
theorem c7_open_mail_ignores_match_scores :
    (Inbox.open_mail inboxTwo identAlice).opened_mail = some 1
    ∧ (Inbox.open_mail inboxTwo identAlice).mails
        = [(proxyAlice, true), (proxyBob, false)]
    ∧ commonPrefixRun (MailProxy.get_info proxyAlice).toList identAlice.toList = 25
    ∧ commonPrefixRun (MailProxy.get_info proxyBob).toList identAlice.toList = 24 :=
  ⟨rfl, rfl, rfl, rfl⟩

end CliMail
